import Mathlib

/-!
# Verification of the module execution and access-control subsystem

Shallow embedding, in Lean 4, of the core of the `file_transfer` repository:

* `src/security/inputValidation.js` (emitted by the task-service generator):
  `sanitizeModuleId`, `validateParameters`, `validateParameterType`,
  `sanitizeString`;
* `src/services/tasks/taskService.js` (emitted by `create-task-service.sh`):
  `getModuleById`, `executeScript`, `getScriptPath`, `paramsToArgs`,
  `executeScriptWithTimeout`;
* `src/services/roles/roleService.js` (emitted by `create-role-service.sh`):
  `getRoleByName`, `getAccessibleModules`, `hasModuleAccess`.

Modelling conventions:

* JavaScript runtime values flowing through the validator are modelled by the
  inductive type `Value` (strings, numbers, booleans, `null`, arrays).  A JS
  object used as a string-keyed mapping is an insertion-ordered association
  list `Params`; a key holding `undefined` is modelled as the key being
  absent (`jsLookup` returning `none`).
* JS numbers are modelled as `Int`.  No claim verified here depends on
  fractional or IEEE-754 behaviour; the string-to-number coercion
  (`Number(value)` in the source) is modelled for sign-prefixed decimal
  integer literals and the empty string.
* Regular-expression matching (`new RegExp(p).test(v)` in the source) is
  modelled extensionally: a parameter definition carries an optional
  predicate `String → Bool` in place of the pattern source text.
* `JSON.parse` is a JS-runtime builtin, not repository code; it is modelled
  by a small parser for flat JSON arrays of strings, integers, booleans and
  `null`, with parse failure triggering the comma-split fallback exactly as
  in the source.
* Wall-clock time and the child process are external to the program; the
  execution engine is modelled relative to an environment that fixes the
  outcome (stdout / failure / timeout, with elapsed milliseconds) of the one
  spawn the engine may perform, and `executeScript` additionally reports
  whether a spawn happened.
-/

set_option autoImplicit false

namespace FileTransfer

/-- A JavaScript runtime value as it flows through the parameter validator. -/
inductive Value where
  | str (s : String)
  | num (n : Int)
  | bool (b : Bool)
  | null
  | arr (items : List Value)
deriving Repr

/-- A JS object used as a string-keyed mapping: insertion-ordered
association list.  An absent key models JS `undefined`. -/
abbrev Params := List (String × Value)

/-- Property lookup `obj[name]`: first entry with the key, `none` = `undefined`. -/
def jsLookup (obj : Params) (k : String) : Option Value :=
  match obj.find? (fun p => p.1 == k) with
  | some p => some p.2
  | none => none

/-- JS assignment `obj[k] = v`: overwrite in place if the key exists,
otherwise append (JS objects keep first-insertion key order). -/
def objInsert (obj : Params) (k : String) (v : Value) : Params :=
  if obj.any (fun p => p.1 == k) then
    obj.map (fun p => if p.1 == k then (k, v) else p)
  else
    obj ++ [(k, v)]

/-- `value === undefined || value === null` on a looked-up property. -/
def isNullish : Option Value → Bool
  | none => true
  | some Value.null => true
  | some _ => false

/-! ## String machinery (JS builtins used by the source) -/

/-- The character class stripped by `sanitizeString`'s first `replace`:
`[\x00-\x08\x0B\x0C\x0E-\x1F\x7F]`. -/
def isStrippedCtrl (c : Char) : Bool :=
  c.toNat ≤ 0x08 || c.toNat == 0x0B || c.toNat == 0x0C ||
    (0x0E ≤ c.toNat && c.toNat ≤ 0x1F) || c.toNat == 0x7F

/-- ASCII whitespace trimmed by JS `String.prototype.trim`
(tab, LF, VT, FF, CR, space; the Unicode space classes are not needed
by any value in this development). -/
def isJsSpace (c : Char) : Bool :=
  c == ' ' || (0x09 ≤ c.toNat && c.toNat ≤ 0x0D)

/-- `.replace(/[\x00-...\x7F]/g, '')` — a character-class replace with the
empty string is a filter. -/
def stripCtrlChars (l : List Char) : List Char :=
  l.filter (fun c => !isStrippedCtrl c)

/-- `.replace(/\r\n/g, '\n')`: one simultaneous left-to-right pass; a pair
formed by an earlier replacement is not reprocessed. -/
def replaceCRLF : List Char → List Char
  | [] => []
  | [c] => [c]
  | c1 :: c2 :: rest =>
    if c1 = '\r' ∧ c2 = '\n' then '\n' :: replaceCRLF rest
    else c1 :: replaceCRLF (c2 :: rest)

/-- `.trim()` on a character list: drop leading and trailing JS whitespace. -/
def trimChars (l : List Char) : List Char :=
  ((l.dropWhile isJsSpace).reverse.dropWhile isJsSpace).reverse

/-- JS `String.prototype.trim`. -/
def jsTrim (s : String) : String :=
  String.mk (trimChars s.data)

/-- JS `String.prototype.toLowerCase` (ASCII; the inputs of this
development are ASCII). -/
def jsToLower (s : String) : String :=
  String.mk (s.data.map Char.toLower)

/-- Split on commas, keeping empty pieces (JS `value.split(',')`). -/
def splitCommaAux : List Char → List Char → List (List Char)
  | [], acc => [acc.reverse]
  | c :: rest, acc =>
    if c = ',' then acc.reverse :: splitCommaAux rest []
    else splitCommaAux rest (c :: acc)

/-- JS `String.prototype.split` with separator `","`. -/
def jsSplitComma (s : String) : List String :=
  (splitCommaAux s.data []).map String.mk

/--
`sanitizeString` from `src/security/inputValidation.js`:

```js
return value
  .replace(/[\x00-\x08\x0B\x0C\x0E-\x1F\x7F]/g, '') // Control chars
  .replace(/\r\n/g, '\n')                           // Standardize line endings
  .trim();
```

The `typeof value !== 'string'` guard returning `''` is a dynamic-typing
guard; every call site in this development passes a string.
-/
def sanitizeString (s : String) : String :=
  String.mk (trimChars (replaceCRLF (stripCtrlChars s.data)))

/-- Decimal digit run to a natural number, `none` on empty or non-digit. -/
def digitsVal : List Char → Option Nat
  | [] => none
  | l =>
    if l.all (fun c => c.isDigit) then
      some (l.foldl (fun acc c => acc * 10 + (c.toNat - '0'.toNat)) 0)
    else
      none

/-- JS `Number(value)` for strings, on the fragment exercised here:
whitespace-trimmed; empty string is `0`; optionally sign-prefixed decimal
integer literals; everything else is `NaN` (`none`). -/
def jsNumber (s : String) : Option Int :=
  let t := (jsTrim s).data
  match t with
  | [] => some 0
  | '-' :: rest => (digitsVal rest).map (fun n => -(n : Int))
  | '+' :: rest => (digitsVal rest).map (fun n => (n : Int))
  | l => (digitsVal l).map (fun n => (n : Int))

mutual

/-- JS `String(v)` / template-literal interpolation of a validated value.
`Array.prototype.toString` joins with commas, rendering `null` as `''`. -/
def jsToString : Value → String
  | Value.str s => s
  | Value.num n => toString n
  | Value.bool b => if b then "true" else "false"
  | Value.null => "null"
  | Value.arr items => String.intercalate "," (jsToStringItems items)

/-- Elementwise rendering used by the array case of `jsToString`. -/
def jsToStringItems : List Value → List String
  | [] => []
  | Value.null :: vs => "" :: jsToStringItems vs
  | v :: vs => jsToString v :: jsToStringItems vs

end

/-! ## JSON.parse model (flat arrays only) -/

/-- Whitespace accepted between JSON tokens. -/
def isJsonWs (c : Char) : Bool :=
  c == ' ' || c == '\t' || c == '\n' || c == '\r'

/-- One JSON scalar token (string without escapes, integer, `true`,
`false`, `null`); returns the value and the unconsumed input. -/
def parseJsonScalar : List Char → Option (Value × List Char)
  | '"' :: rest =>
    let body := rest.takeWhile (fun c => c != '"' && c != '\\')
    match rest.drop body.length with
    | '"' :: rest2 => some (Value.str (String.mk body), rest2)
    | _ => none
  | 't' :: 'r' :: 'u' :: 'e' :: rest => some (Value.bool true, rest)
  | 'f' :: 'a' :: 'l' :: 's' :: 'e' :: rest => some (Value.bool false, rest)
  | 'n' :: 'u' :: 'l' :: 'l' :: rest => some (Value.null, rest)
  | '-' :: rest =>
    let digits := rest.takeWhile Char.isDigit
    match digitsVal digits with
    | some n => some (Value.num (-(n : Int)), rest.drop digits.length)
    | none => none
  | l =>
    let digits := l.takeWhile Char.isDigit
    match digitsVal digits with
    | some n => some (Value.num (n : Int), l.drop digits.length)
    | none => none

/-- Comma-separated JSON scalars up to the closing bracket (fuelled
recursion; fuel bounds the number of items). -/
def parseJsonItems (fuel : Nat) (l : List Char) : Option (List Value × List Char) :=
  match fuel with
  | 0 => none
  | fuel + 1 =>
    match parseJsonScalar (l.dropWhile isJsonWs) with
    | none => none
    | some (v, rest) =>
      match rest.dropWhile isJsonWs with
      | ',' :: rest2 =>
        match parseJsonItems fuel rest2 with
        | some (vs, rest3) => some (v :: vs, rest3)
        | none => none
      | ']' :: rest2 => some ([v], rest2)
      | _ => none

/-- Model of `JSON.parse` on the fragment relevant here: a top-level scalar,
or a flat array of scalars.  `none` models a thrown `SyntaxError`, which the
source catches and answers with the comma-split fallback. -/
def jsonParseTop (s : String) : Option Value :=
  match s.data.dropWhile isJsonWs with
  | '[' :: rest =>
    match rest.dropWhile isJsonWs with
    | ']' :: rest2 =>
      if rest2.dropWhile isJsonWs == [] then some (Value.arr []) else none
    | _ =>
      match parseJsonItems (rest.length + 1) rest with
      | some (vs, rest2) =>
        if rest2.dropWhile isJsonWs == [] then some (Value.arr vs) else none
      | none => none
  | l =>
    match parseJsonScalar l with
    | some (v, rest) => if rest.dropWhile isJsonWs == [] then some v else none
    | none => none

/-! ## Parameter definitions and the validator (`src/security/inputValidation.js`) -/

/-- The `type` enum of `parameterDefinitionSchema` in
`src/models/module.js`: `['string', 'number', 'boolean', 'array']`. -/
inductive PType where
  | string
  | number
  | boolean
  | array
deriving Repr, DecidableEq

/--
One entry of `parameterDefinitions` (the embedded
`parameterDefinitionSchema` of `src/models/module.js`).

* `defaultValue` is `Schema.Types.Mixed` with schema default `null`:
  `none` models the field being JS `undefined` (never set at all), while
  `some Value.null` models the stored `null` that mongoose writes when no
  default is given.
* `validationPattern` is modelled extensionally (see the file header);
  `none` covers both `undefined` and the schema-default `null`, which are
  equally falsy at the single use site.
* The human-readable `description` field is never read by the validator or
  the engine and is omitted.
-/
structure ParamDef where
  name : String
  type : PType
  required : Bool
  defaultValue : Option Value
  validationPattern : Option (String → Bool)
  validationMessage : Option String

/--
`validateParameterType(name, value, type)` from
`src/security/inputValidation.js`: type-directed coercion of one value,
returning `{ value }` (here `.ok`) or `{ error }` (here `.error`).
-/
def validateParameterType (name : String) (value : Value) (type : PType) :
    Except String Value :=
  match type with
  | PType.string =>
    match value with
    | Value.str s => Except.ok (Value.str (sanitizeString s))
    | _ => Except.error ("Parameter " ++ name ++ " must be a string")
  | PType.number =>
    match value with
    | Value.str s =>
      match jsNumber s with
      | some n => Except.ok (Value.num n)
      | none => Except.error ("Parameter " ++ name ++ " must be a valid number")
    | Value.num n => Except.ok (Value.num n)
    | _ => Except.error ("Parameter " ++ name ++ " must be a number")
  | PType.boolean =>
    match value with
    | Value.str s =>
      if jsToLower s == "true" then Except.ok (Value.bool true)
      else if jsToLower s == "false" then Except.ok (Value.bool false)
      else Except.error ("Parameter " ++ name ++ " must be a boolean (true/false)")
    | Value.bool b => Except.ok (Value.bool b)
    | _ => Except.error ("Parameter " ++ name ++ " must be a boolean")
  | PType.array =>
    match value with
    | Value.str s =>
      match jsonParseTop s with
      | some (Value.arr items) => Except.ok (Value.arr items)
      | some _ => Except.error ("Parameter " ++ name ++ " must be an array")
      | none =>
        Except.ok (Value.arr ((jsSplitComma s).map (fun piece => Value.str (jsTrim piece))))
    | Value.arr items =>
      Except.ok (Value.arr (items.map (fun item =>
        match item with
        | Value.str s => Value.str (sanitizeString s)
        | other => other)))
    | _ => Except.error ("Parameter " ++ name ++ " must be an array")

/-- The post-coercion pattern check of `validateParameters` (strings only):

```js
if (def.type === 'string' && def.validationPattern && validatedValue.value) {
  const regexp = new RegExp(def.validationPattern);
  if (!regexp.test(validatedValue.value)) {
    errors.push(def.validationMessage || `Invalid format for parameter: ${name}`);
```

Note the `&& validatedValue.value` truthiness test: the empty string is
falsy, so an empty sanitized value is never pattern-checked; likewise a
falsy (empty) `validationMessage` falls back to the generic message. -/
def patternCheck (d : ParamDef) (vv : Value) : Option String :=
  match d.type, d.validationPattern, vv with
  | PType.string, some p, Value.str s =>
    if s == "" then none
    else if p s then none
    else
      match d.validationMessage with
      | some m => if m == "" then some ("Invalid format for parameter: " ++ d.name) else some m
      | none => some ("Invalid format for parameter: " ++ d.name)
  | _, _, _ => none

/-- The body of the `definitions.forEach(def => ...)` loop of
`validateParameters`, acting on the `(validated, errors)` accumulator. -/
def processDef (params : Params) (acc : Params × List String) (d : ParamDef) :
    Params × List String :=
  if d.required && isNullish (jsLookup params d.name) then
    (acc.1, acc.2 ++ ["Missing required parameter: " ++ d.name])
  else if isNullish (jsLookup params d.name) then
    match d.defaultValue with
    | some dv => (objInsert acc.1 d.name dv, acc.2)
    | none => acc
  else
    match jsLookup params d.name with
    | some v =>
      match validateParameterType d.name v d.type with
      | Except.error e => (acc.1, acc.2 ++ [e])
      | Except.ok vv =>
        match patternCheck d vv with
        | some msg => (acc.1, acc.2 ++ [msg])
        | none => (objInsert acc.1 d.name vv, acc.2)
    | none => acc

/--
`validateParameters(params, definitions)` from
`src/security/inputValidation.js`: validates each definition in order,
collecting the validated mapping and all error messages; if any error was
recorded it throws (here `.error` with the collected messages — the source
joins them with `'; '` into the thrown `Error`'s message, see
`invalidParamsMessage`), otherwise it returns the validated mapping. -/
def validateParameters (params : Params) (definitions : List ParamDef) :
    Except (List String) Params :=
  let acc := definitions.foldl (processDef params) ([], [])
  if acc.2.isEmpty then Except.ok acc.1 else Except.error acc.2

/-- The message of the `Error` thrown by `validateParameters`:
``throw new Error(`Invalid parameters: ${errors.join('; ')}`)``. -/
def invalidParamsMessage (errors : List String) : String :=
  "Invalid parameters: " ++ String.intercalate "; " errors

/--
`sanitizeModuleId` from `src/security/inputValidation.js`: `none` models the
`null` returned for falsy input (the empty string); otherwise the input is
trimmed, lower-cased and stripped to `[a-z0-9_]`.
-/
def sanitizeModuleId (moduleId : String) : Option String :=
  if moduleId == "" then none
  else some (String.mk ((jsToLower (jsTrim moduleId)).data.filter
    (fun c => c.isLower || c.isDigit || c == '_')))

/-! ## Task service (`src/services/tasks/taskService.js`) -/

/-- A `Module` document as read by the task service (fields the service
never reads — display name, description, icon, timestamps — are omitted). -/
structure ModuleDef where
  moduleId : String
  scriptName : String
  parameterDefinitions : List ParamDef
  isActive : Bool

/-- Outcome of the race, inside `executeScriptWithTimeout`, between
`execFilePromise` and the timeout promise, together with the wall-clock
milliseconds that had elapsed when it settled.  Time and the child process
are external; the environment fixes this outcome per `(path, args)`. -/
inductive SpawnOutcome where
  | success (stdout : String) (stderr : String) (elapsed : Nat)
  | failure (message : String) (stderr : Option String) (elapsed : Nat)
  | timedOut (elapsed : Nat)

/-- What `executeScriptWithTimeout` resolves with on success. -/
structure ExecOk where
  stdout : String
  stderr : String
  executionTime : Nat
deriving Repr, DecidableEq

/-- What `executeScriptWithTimeout` rejects with: the `Error`, carrying a
message, optionally captured stderr, and the `executionTime` the catch
block attaches to it. -/
structure ExecErr where
  message : String
  stderr : Option String
  executionTime : Nat
deriving Repr, DecidableEq

/-- The result object `executeScript` returns to its caller.  Optional
fields model properties absent from the literal on the corresponding path
(`none` = the key is not in the object). -/
structure ExecResult where
  success : Bool
  moduleId : String
  scriptName : Option String
  result : Option String
  executionTime : Option Nat
  error : Option String
  stderr : Option String
deriving Repr, DecidableEq

/-- External collaborators of the task service: the module store, the
filesystem (`fs.existsSync`), the working directory, the configured
timeout (`config.security.maxScriptRuntimeMs || 30000`), and the behaviour
of the one child process a request may spawn. -/
structure Env where
  modules : List ModuleDef
  cwd : String
  fsExists : String → Bool
  maxScriptRuntime : Nat
  outcome : String → List String → SpawnOutcome

/-- `getModuleById` of the task service: sanitize the id, reject a falsy
sanitized id, then `Module.findOne({ moduleId, isActive: true })`; a
missing module is a thrown `Error` (`.error` here). -/
def getModuleById (modules : List ModuleDef) (moduleId : String) :
    Except String ModuleDef :=
  match sanitizeModuleId moduleId with
  | none => Except.error "Invalid module ID"
  | some sid =>
    if sid == "" then Except.error "Invalid module ID"
    else
      match modules.find? (fun m => m.moduleId == sid && m.isActive) with
      | some m => Except.ok m
      | none => Except.error ("Module not found: " ++ sid)

/-- The executable-name sanitization of `getScriptPath`:
`scriptName.replace(/[^a-zA-Z0-9_.-]/g, '')`. -/
def stripScriptName (scriptName : String) : String :=
  String.mk (scriptName.data.filter
    (fun c => c.isAlpha || c.isDigit || c == '_' || c == '.' || c == '-'))

/-- `getScriptPath` of the task service: refuse (`none`, modelling the
`null` return) whenever sanitization changed the name, else join against
the fixed `scripts` directory and require the file to exist. -/
def getScriptPath (env : Env) (scriptName : String) : Option String :=
  let sanitizedName := stripScriptName scriptName
  if sanitizedName != scriptName then none
  else
    let scriptPath := env.cwd ++ "/scripts/" ++ sanitizedName
    if env.fsExists scriptPath then some scriptPath else none

/-- `paramsToArgs` of the task service: `Object.entries` order; skip
null/undefined; boolean `true` is a bare `--key`, `false` is omitted;
arrays contribute one `--key=item` per element; everything else one
`--key=value`. -/
def paramsToArgs (params : Params) : List String :=
  params.foldl (fun args kv =>
    match kv.2 with
    | Value.null => args
    | Value.bool b => if b then args ++ ["--" ++ kv.1] else args
    | Value.arr items =>
      args ++ items.map (fun item => "--" ++ kv.1 ++ "=" ++ jsToString item)
    | v => args ++ ["--" ++ kv.1 ++ "=" ++ jsToString v]) []

/-- `executeScriptWithTimeout` of the task service, relative to the settled
outcome of the internal race: resolve with `{...result, executionTime}`, or
reject with the error after attaching `executionTime` to it (the timeout
rejection's message interpolates the configured timeout). -/
def executeScriptWithTimeout (outcome : SpawnOutcome) (timeout : Nat) :
    Except ExecErr ExecOk :=
  match outcome with
  | SpawnOutcome.success stdout stderr elapsed =>
    Except.ok ⟨stdout, stderr, elapsed⟩
  | SpawnOutcome.failure message stderr elapsed =>
    Except.error ⟨message, stderr, elapsed⟩
  | SpawnOutcome.timedOut elapsed =>
    Except.error ⟨"Script execution timed out after " ++ toString timeout ++ "ms",
      none, elapsed⟩

/-- `error.stderr || null` in `executeScript`'s catch block: JS `||` maps a
missing or empty (falsy) stderr to `null`. -/
def jsStderrOrNull : Option String → Option String
  | some s => if s == "" then none else some s
  | none => none

/-- The failure result built by `executeScript`'s catch block:
`{ success: false, moduleId, error: error.message, stderr: error.stderr || null }`
— note it has no `executionTime` key. -/
def failureResult (moduleId : String) (message : String) (stderr : Option String) :
    ExecResult :=
  ⟨false, moduleId, none, none, none, some message, jsStderrOrNull stderr⟩

/--
`executeScript(moduleId, parameters, userId)` of the task service.  Every
`throw` inside the `try` lands in the single catch block, which shapes the
failure result; the boolean in the returned pair records whether a child
process was spawned (i.e. whether control reached
`executeScriptWithTimeout`).
-/
def executeScript (env : Env) (moduleId : String) (parameters : Params)
    (userId : String) : ExecResult × Bool :=
  let _ := userId
  -- `userId` is only layered into the child's environment (`USER_ID`),
  -- which is part of the external spawn already abstracted by `env.outcome`.
  match getModuleById env.modules moduleId with
  | Except.error msg => (failureResult moduleId msg none, false)
  | Except.ok m =>
    match getScriptPath env m.scriptName with
    | none => (failureResult moduleId ("Script not found: " ++ m.scriptName) none, false)
    | some scriptPath =>
      match validateParameters parameters m.parameterDefinitions with
      | Except.error errs =>
        (failureResult moduleId (invalidParamsMessage errs) none, false)
      | Except.ok validatedParams =>
        let args := paramsToArgs validatedParams
        match executeScriptWithTimeout (env.outcome scriptPath args) env.maxScriptRuntime with
        | Except.ok r =>
          (⟨true, moduleId, some m.scriptName, some r.stdout, some r.executionTime,
            none, none⟩, true)
        | Except.error e =>
          (failureResult moduleId e.message e.stderr, true)

/-! ## Role service (`src/services/roles/roleService.js`) -/

/-- One entry of a role's embedded `permissions` array. -/
structure Permission where
  moduleId : String
  description : String
deriving Repr, DecidableEq

/-- A `Role` document: name, numeric privilege level (lower = more
privileged), embedded permissions. -/
structure Role where
  name : String
  level : Int
  permissions : List Permission
deriving Repr, DecidableEq

/-- `Role.findOne({ name: roleName })` over the modelled store. -/
def getRoleByName (db : List Role) (roleName : String) : Option Role :=
  db.find? (fun r => r.name == roleName)

/-- Insertion-ordered deduplication: the JS `Set` built by
`getAccessibleModules`, read back with `Array.from`. -/
def jsSetDedup (l : List String) : List String :=
  l.foldl (fun acc x => if acc.contains x then acc else acc ++ [x]) []

/--
`getAccessibleModules(roleName)` of the role service, happy path: look the
role up by name (empty result for an unknown role), fetch every role with
`level ≥ role.level`, and collect all their permissions' `moduleId`s into a
`Set`.
-/
def getAccessibleModules (db : List Role) (roleName : String) : List String :=
  match getRoleByName db roleName with
  | none => []
  | some role =>
    let roles := db.filter (fun r => r.level ≥ role.level)
    jsSetDedup (roles.flatMap (fun r => r.permissions.map (fun p => p.moduleId)))

/-- The fallible role store: `Except.error` models the persistence layer
(`Role.find` / `Role.findOne`) throwing, which `getAccessibleModules`
re-throws after logging. -/
def getAccessibleModulesE (store : Except String (List Role)) (roleName : String) :
    Except String (List String) :=
  match store with
  | Except.error e => Except.error e
  | Except.ok db => Except.ok (getAccessibleModules db roleName)

/-- `hasModuleAccess(roleName, moduleId)` of the role service:
`modules.includes(moduleId)`, with the catch block turning any thrown
error into `false`. -/
def hasModuleAccess (store : Except String (List Role)) (roleName moduleId : String) :
    Bool :=
  match getAccessibleModulesE store roleName with
  | Except.error _ => false
  | Except.ok modules => modules.contains moduleId

/-! ## Per-definition characterization of the validator

`validateParameters` folds `processDef` over the definition list.  The two
functions below give, for a single definition, the error message the loop
body records (if any) and the entry it adds to the validated mapping (if
any); the fold is then characterized in terms of `List.filterMap`. -/

/-- The error message `processDef` records for one definition, if any. -/
def defProblem (params : Params) (d : ParamDef) : Option String :=
  if d.required && isNullish (jsLookup params d.name) then
    some ("Missing required parameter: " ++ d.name)
  else if isNullish (jsLookup params d.name) then none
  else
    match jsLookup params d.name with
    | some v =>
      match validateParameterType d.name v d.type with
      | Except.error e => some e
      | Except.ok vv => patternCheck d vv
    | none => none

/-- The entry `processDef` adds to the validated mapping for one
definition, if any. -/
def defOutput (params : Params) (d : ParamDef) : Option Value :=
  if d.required && isNullish (jsLookup params d.name) then none
  else if isNullish (jsLookup params d.name) then d.defaultValue
  else
    match jsLookup params d.name with
    | some v =>
      match validateParameterType d.name v d.type with
      | Except.error _ => none
      | Except.ok vv =>
        match patternCheck d vv with
        | some _ => none
        | none => some vv
    | none => none

/-- The validated mapping a successful run produces: one entry per
definition with an output, in definition order. -/
def validatedOutputs (params : Params) (definitions : List ParamDef) : Params :=
  definitions.filterMap (fun d => (defOutput params d).map (fun v => (d.name, v)))

theorem processDef_eq (params : Params) (acc : Params × List String) (d : ParamDef) :
    processDef params acc d =
      match defProblem params d with
      | some e => (acc.1, acc.2 ++ [e])
      | none =>
        match defOutput params d with
        | some v => (objInsert acc.1 d.name v, acc.2)
        | none => acc := by
  unfold processDef defProblem defOutput
  cases hreq : d.required && isNullish (jsLookup params d.name) with
  | true => rfl
  | false =>
    cases hn : isNullish (jsLookup params d.name) with
    | true => cases d.defaultValue <;> rfl
    | false =>
      cases hv : jsLookup params d.name with
      | none => rfl
      | some v =>
        simp only []
        cases hvt : validateParameterType d.name v d.type with
        | error e => rfl
        | ok vv =>
          simp only []
          cases hpc : patternCheck d vv <;> rfl

theorem defProblem_none_or_defOutput_none (params : Params) (d : ParamDef) :
    defProblem params d = none ∨ defOutput params d = none := by
  unfold defProblem defOutput
  cases hreq : d.required && isNullish (jsLookup params d.name) with
  | true => right; rfl
  | false =>
    cases hn : isNullish (jsLookup params d.name) with
    | true => left; rfl
    | false =>
      cases hv : jsLookup params d.name with
      | none => left; rfl
      | some v =>
        simp only []
        cases hvt : validateParameterType d.name v d.type with
        | error e => right; rfl
        | ok vv =>
          simp only []
          cases hpc : patternCheck d vv with
          | some m => right; rfl
          | none => left; rfl

theorem foldl_processDef_errors (params : Params) (definitions : List ParamDef)
    (acc : Params × List String) :
    (definitions.foldl (processDef params) acc).2 =
      acc.2 ++ definitions.filterMap (defProblem params) := by
  induction definitions generalizing acc with
  | nil => simp
  | cons d rest ih =>
    simp only [List.foldl_cons, List.filterMap_cons]
    rw [processDef_eq]
    cases hp : defProblem params d with
    | some e =>
      rw [ih (acc.1, acc.2 ++ [e])]
      simp
    | none =>
      cases ho : defOutput params d with
      | some v =>
        rw [ih (objInsert acc.1 d.name v, acc.2)]
      | none =>
        rw [ih acc]


theorem objInsert_fresh (obj : Params) (k : String) (v : Value)
    (h : ∀ p ∈ obj, p.1 ≠ k) : objInsert obj k v = obj ++ [(k, v)] := by
  unfold objInsert
  have hany : obj.any (fun p => p.1 == k) = false := by
    rw [List.any_eq_false]
    intro p hp
    simpa using h p hp
  simp [hany]

theorem foldl_processDef_validated (params : Params) (definitions : List ParamDef)
    (acc : Params × List String)
    (hfresh : ∀ d ∈ definitions, ∀ p ∈ acc.1, p.1 ≠ d.name)
    (hnd : (definitions.map ParamDef.name).Nodup) :
    (definitions.foldl (processDef params) acc).1 =
      acc.1 ++ validatedOutputs params definitions := by
  induction definitions generalizing acc with
  | nil => simp [validatedOutputs]
  | cons d rest ih =>
    have hnd' : (d.name :: rest.map ParamDef.name).Nodup := by simpa using hnd
    have hdname : d.name ∉ rest.map ParamDef.name := (List.nodup_cons.mp hnd').1
    have hndr : (rest.map ParamDef.name).Nodup := (List.nodup_cons.mp hnd').2
    simp only [validatedOutputs, List.foldl_cons, List.filterMap_cons]
    rw [processDef_eq]
    cases hp : defProblem params d with
    | some e =>
      have ho : defOutput params d = none := by
        rcases defProblem_none_or_defOutput_none params d with h | h
        · rw [hp] at h; exact absurd h (Option.some_ne_none e)
        · exact h
      rw [ho]
      have := ih (acc.1, acc.2 ++ [e])
        (fun d' hd' p hp' => hfresh d' (List.mem_cons_of_mem d hd') p hp') hndr
      simp only [validatedOutputs] at this
      rw [this]
      rfl
    | none =>
      cases ho : defOutput params d with
      | some v =>
        simp only [Option.map_some']
        rw [objInsert_fresh acc.1 d.name v
          (fun p hp' => hfresh d (List.mem_cons_self d rest) p hp')]
        have hfresh2 : ∀ d' ∈ rest, ∀ p ∈ acc.1 ++ [(d.name, v)], p.1 ≠ d'.name := by
          intro d' hd' p hp'
          rcases List.mem_append.mp hp' with hmem | hmem
          · exact hfresh d' (List.mem_cons_of_mem d hd') p hmem
          · have hpv : p = (d.name, v) := by simpa using hmem
            subst hpv
            intro hcontra
            apply hdname
            have : d.name = d'.name := hcontra
            rw [this]
            exact List.mem_map_of_mem ParamDef.name hd'
        have := ih (acc.1 ++ [(d.name, v)], acc.2) hfresh2 hndr
        simp only [validatedOutputs] at this
        rw [this, List.append_assoc]
        rfl
      | none =>
        simp only [Option.map_none']
        have := ih acc
          (fun d' hd' p hp' => hfresh d' (List.mem_cons_of_mem d hd') p hp') hndr
        simp only [validatedOutputs] at this
        rw [this]

theorem foldl_errors_nilacc (params : Params) (definitions : List ParamDef) :
    (definitions.foldl (processDef params) ([], [])).2 =
      definitions.filterMap (defProblem params) := by
  simpa using foldl_processDef_errors params definitions ([], [])

theorem foldl_validated_nilacc (params : Params) (definitions : List ParamDef)
    (hnd : (definitions.map ParamDef.name).Nodup) :
    (definitions.foldl (processDef params) ([], [])).1 =
      validatedOutputs params definitions := by
  simpa using foldl_processDef_validated params definitions ([], []) (by simp) hnd

/-- `validateParameters`, characterized: it fails exactly with the list of
per-definition problems (in definition order) when that list is nonempty. -/
theorem validateParameters_error_char (params : Params) (definitions : List ParamDef)
    (h : definitions.filterMap (defProblem params) ≠ []) :
    validateParameters params definitions =
      Except.error (definitions.filterMap (defProblem params)) := by
  simp only [validateParameters]
  rw [foldl_errors_nilacc]
  rw [if_neg]
  simp only [List.isEmpty_iff]
  exact h

/-- `validateParameters`, characterized: on success (for a schema with
distinct parameter names) the output is exactly `validatedOutputs`, and no
definition has a problem. -/
theorem validateParameters_ok_char (params : Params) (definitions : List ParamDef)
    (V : Params) (hnd : (definitions.map ParamDef.name).Nodup)
    (h : validateParameters params definitions = Except.ok V) :
    (∀ d ∈ definitions, defProblem params d = none) ∧
      V = validatedOutputs params definitions := by
  have herr : definitions.filterMap (defProblem params) = [] := by
    by_contra hne
    rw [validateParameters_error_char params definitions hne] at h
    cases h
  constructor
  · intro d hd
    exact List.filterMap_eq_nil_iff.mp herr d hd
  · simp only [validateParameters] at h
    rw [foldl_errors_nilacc, herr] at h
    simp only [List.isEmpty_nil, if_true] at h
    rw [foldl_validated_nilacc params definitions hnd] at h
    exact (Except.ok.inj h).symm

/-- Converse: no problems means success with exactly `validatedOutputs`. -/
theorem validateParameters_ok_of_no_problem (params : Params)
    (definitions : List ParamDef) (hnd : (definitions.map ParamDef.name).Nodup)
    (h : definitions.filterMap (defProblem params) = []) :
    validateParameters params definitions =
      Except.ok (validatedOutputs params definitions) := by
  simp only [validateParameters]
  rw [foldl_errors_nilacc, h]
  simp only [List.isEmpty_nil, if_true]
  rw [foldl_validated_nilacc params definitions hnd]

/-! ### Lookup lemmas for validated outputs -/

theorem jsLookup_cons_self (k : String) (v : Value) (t : Params) :
    jsLookup ((k, v) :: t) k = some v := by
  unfold jsLookup
  rw [List.find?_cons_of_pos]
  simp

theorem jsLookup_cons_ne (k k' : String) (v : Value) (t : Params) (h : k' ≠ k) :
    jsLookup ((k', v) :: t) k = jsLookup t k := by
  unfold jsLookup
  rw [List.find?_cons_of_neg]
  simpa using h

theorem jsLookup_mem (obj : Params) (k : String) (v : Value)
    (h : jsLookup obj k = some v) : (k, v) ∈ obj := by
  unfold jsLookup at h
  cases hf : obj.find? (fun p => p.1 == k) with
  | none => rw [hf] at h; cases h
  | some p =>
    rw [hf] at h
    have hp2 : p.2 = v := Option.some.inj h
    have hmem := List.mem_of_find?_eq_some hf
    have hk : p.1 = k := by simpa using List.find?_some hf
    have : (k, v) = p := by
      cases p
      simp only at hp2 hk
      rw [hp2, hk]
    rw [this]
    exact hmem

theorem jsLookup_validatedOutputs_not_mem (params : Params)
    (definitions : List ParamDef) (k : String)
    (hk : k ∉ definitions.map ParamDef.name) :
    jsLookup (validatedOutputs params definitions) k = none := by
  induction definitions with
  | nil => rfl
  | cons d rest ih =>
    have hk0 : k ≠ d.name := by
      intro hcontra
      exact hk (by rw [hcontra]; exact List.mem_map_of_mem ParamDef.name (List.mem_cons_self d rest))
    have hkr : k ∉ rest.map ParamDef.name := by
      intro hcontra
      exact hk (List.mem_map.mpr (by
        rcases List.mem_map.mp hcontra with ⟨d', hd', he⟩
        exact ⟨d', List.mem_cons_of_mem d hd', he⟩))
    simp only [validatedOutputs, List.filterMap_cons]
    cases ho : defOutput params d with
    | none =>
      simpa [validatedOutputs] using ih hkr
    | some v =>
      simp only [Option.map_some']
      rw [jsLookup_cons_ne k d.name v _ (fun hc => hk0 hc.symm)]
      simpa [validatedOutputs] using ih hkr

theorem jsLookup_validatedOutputs (params : Params) (definitions : List ParamDef)
    (hnd : (definitions.map ParamDef.name).Nodup) (d : ParamDef)
    (hd : d ∈ definitions) :
    jsLookup (validatedOutputs params definitions) d.name = defOutput params d := by
  induction definitions with
  | nil => cases hd
  | cons d0 rest ih =>
    have hnd' : (d0.name :: rest.map ParamDef.name).Nodup := by simpa using hnd
    have hd0name : d0.name ∉ rest.map ParamDef.name := (List.nodup_cons.mp hnd').1
    have hndr : (rest.map ParamDef.name).Nodup := (List.nodup_cons.mp hnd').2
    simp only [validatedOutputs, List.filterMap_cons]
    rcases List.mem_cons.mp hd with he | hmem
    · subst he
      cases ho : defOutput params d with
      | some v =>
        simp only [Option.map_some']
        exact jsLookup_cons_self d.name v _
      | none =>
        simp only [Option.map_none']
        have := jsLookup_validatedOutputs_not_mem params rest d.name hd0name
        simpa [validatedOutputs] using this
    · have hne : d.name ≠ d0.name := by
        intro hcontra
        exact hd0name (hcontra ▸ List.mem_map_of_mem ParamDef.name hmem)
      cases ho : defOutput params d0 with
      | some v =>
        simp only [Option.map_some']
        rw [jsLookup_cons_ne d.name d0.name v _ (fun hc => hne hc.symm)]
        simpa [validatedOutputs] using ih hndr hmem
      | none =>
        simp only [Option.map_none']
        simpa [validatedOutputs] using ih hndr hmem

/-! ### Fixed points of coercion (for the idempotence analysis) -/

/-- A top-level array element is unchanged by the array branch's
re-sanitization. -/
def itemFixed : Value → Bool
  | Value.str s => sanitizeString s == s
  | _ => true

/-- Every string in the value (at top level or as an array element) is a
fixed point of `sanitizeString`. -/
def valueStringsFixed : Value → Bool
  | Value.str s => sanitizeString s == s
  | Value.arr items => items.all itemFixed
  | _ => true

/-- The definition's default value, when present and non-null, survives its
own declared coercion and pattern check unchanged. -/
def defaultFixed (d : ParamDef) : Prop :=
  ∀ dv, d.defaultValue = some dv → dv ≠ Value.null →
    validateParameterType d.name dv d.type = Except.ok dv ∧ patternCheck d dv = none

theorem isNullish_some_of_ne (v : Value) (h : v ≠ Value.null) :
    isNullish (some v) = false := by
  cases v <;> simp [isNullish] at h ⊢

theorem validateParameterType_ok_not_null (name : String) (ty : PType) (v w : Value)
    (h : validateParameterType name v ty = Except.ok w) : w ≠ Value.null := by
  unfold validateParameterType at h
  cases ty with
  | string =>
    cases v <;> simp only [] at h <;> first | exact Except.noConfusion h | skip
    case str s =>
      have := Except.ok.inj h
      rw [← this]
      simp
  | number =>
    cases v <;> simp only [] at h <;> first | exact Except.noConfusion h | skip
    case str s =>
      cases hn : jsNumber s with
      | some n =>
        rw [hn] at h
        have := Except.ok.inj h
        rw [← this]; simp
      | none => rw [hn] at h; exact Except.noConfusion h
    case num n =>
      have := Except.ok.inj h
      rw [← this]; simp
  | boolean =>
    cases v <;> simp only [] at h <;> first | exact Except.noConfusion h | skip
    case str s =>
      by_cases ht : jsToLower s == "true"
      · rw [if_pos ht] at h
        have := Except.ok.inj h
        rw [← this]; simp
      · rw [if_neg ht] at h
        by_cases hf : jsToLower s == "false"
        · rw [if_pos hf] at h
          have := Except.ok.inj h
          rw [← this]; simp
        · rw [if_neg hf] at h
          exact Except.noConfusion h
    case bool b =>
      have := Except.ok.inj h
      rw [← this]; simp
  | array =>
    cases v <;> simp only [] at h <;> first | exact Except.noConfusion h | skip
    case str s =>
      cases hj : jsonParseTop s with
      | some jv =>
        rw [hj] at h
        cases jv <;> simp only [] at h <;> first | exact Except.noConfusion h | skip
        case arr items =>
          have := Except.ok.inj h
          rw [← this]; simp
      | none =>
        rw [hj] at h
        have := Except.ok.inj h
        rw [← this]; simp
    case arr items =>
      have := Except.ok.inj h
      rw [← this]; simp

theorem map_sanitize_of_itemFixed (xs : List Value) (h : xs.all itemFixed = true) :
    xs.map (fun item =>
      match item with
      | Value.str s => Value.str (sanitizeString s)
      | other => other) = xs := by
  induction xs with
  | nil => rfl
  | cons x rest ih =>
    simp only [List.all_cons, Bool.and_eq_true] at h
    simp only [List.map_cons]
    rw [ih h.2]
    cases x <;> simp only []
    case str s =>
      have : sanitizeString s = s := by
        have hx := h.1
        simpa [itemFixed] using hx
      rw [this]

/-- Re-coercing a coercion output is the identity, provided every string in
it is sanitization-fixed. -/
theorem validateParameterType_fixed (name : String) (ty : PType) (v w : Value)
    (h : validateParameterType name v ty = Except.ok w)
    (hw : valueStringsFixed w = true) :
    validateParameterType name w ty = Except.ok w := by
  unfold validateParameterType at h ⊢
  cases ty with
  | string =>
    cases v <;> simp only [] at h <;> first | exact Except.noConfusion h | skip
    case str s =>
      have hws : w = Value.str (sanitizeString s) := (Except.ok.inj h).symm
      subst hws
      simp only []
      have : sanitizeString (sanitizeString s) = sanitizeString s := by
        simpa [valueStringsFixed] using hw
      rw [this]
  | number =>
    cases v <;> simp only [] at h <;> first | exact Except.noConfusion h | skip
    case str s =>
      cases hn : jsNumber s with
      | some n =>
        rw [hn] at h
        have hws : w = Value.num n := (Except.ok.inj h).symm
        subst hws
        rfl
      | none => rw [hn] at h; exact Except.noConfusion h
    case num n =>
      have hws : w = Value.num n := (Except.ok.inj h).symm
      subst hws
      rfl
  | boolean =>
    cases v <;> simp only [] at h <;> first | exact Except.noConfusion h | skip
    case str s =>
      by_cases ht : jsToLower s == "true"
      · rw [if_pos ht] at h
        have hws : w = Value.bool true := (Except.ok.inj h).symm
        subst hws
        rfl
      · rw [if_neg ht] at h
        by_cases hf : jsToLower s == "false"
        · rw [if_pos hf] at h
          have hws : w = Value.bool false := (Except.ok.inj h).symm
          subst hws
          rfl
        · rw [if_neg hf] at h
          exact Except.noConfusion h
    case bool b =>
      have hws : w = Value.bool b := (Except.ok.inj h).symm
      subst hws
      rfl
  | array =>
    cases v <;> simp only [] at h <;> first | exact Except.noConfusion h | skip
    case str s =>
      cases hj : jsonParseTop s with
      | some jv =>
        rw [hj] at h
        cases jv <;> simp only [] at h <;> first | exact Except.noConfusion h | skip
        case arr items =>
          have hws : w = Value.arr items := (Except.ok.inj h).symm
          subst hws
          simp only []
          rw [map_sanitize_of_itemFixed items (by simpa [valueStringsFixed] using hw)]
      | none =>
        rw [hj] at h
        have hws : w = Value.arr ((jsSplitComma s).map (fun piece => Value.str (jsTrim piece))) :=
          (Except.ok.inj h).symm
        subst hws
        simp only []
        rw [map_sanitize_of_itemFixed _ (by simpa [valueStringsFixed] using hw)]
    case arr items =>
      have hws : w = Value.arr (items.map (fun item =>
        match item with
        | Value.str s => Value.str (sanitizeString s)
        | other => other)) := (Except.ok.inj h).symm
      subst hws
      simp only []
      rw [map_sanitize_of_itemFixed _ (by simpa [valueStringsFixed] using hw)]

/-- Re-validating an entry of a successful output: for a definition with no
problem on the first run, the second run records no problem either and
produces the same entry, provided the definition's default is
coercion-fixed and every string in the output is sanitization-fixed. -/
theorem revalidate_defProblem_defOutput (params V : Params)
    (definitions : List ParamDef) (hnd : (definitions.map ParamDef.name).Nodup)
    (hV : V = validatedOutputs params definitions)
    (hsf : ∀ kv ∈ V, valueStringsFixed kv.2 = true)
    (d : ParamDef) (hd : d ∈ definitions)
    (hpd : defProblem params d = none) (hdf : defaultFixed d) :
    defProblem V d = none ∧ defOutput V d = defOutput params d := by
  have hlook : jsLookup V d.name = defOutput params d := by
    rw [hV]; exact jsLookup_validatedOutputs params definitions hnd d hd
  cases hreq : d.required && isNullish (jsLookup params d.name) with
  | true =>
    exfalso
    unfold defProblem at hpd
    rw [hreq] at hpd
    simp at hpd
  | false =>
    cases hn : isNullish (jsLookup params d.name) with
    | true =>
      have hreqf : d.required = false := by
        rw [hn] at hreq; simpa using hreq
      have hout : defOutput params d = d.defaultValue := by
        unfold defOutput
        rw [hreq, hn]
        rfl
      cases hdv : d.defaultValue with
      | none =>
        rw [hdv] at hout
        rw [hout] at hlook
        constructor
        · unfold defProblem
          simp [hlook, isNullish, hreqf]
        · rw [hout]
          unfold defOutput
          simp [hlook, isNullish, hreqf, hdv]
      | some dv =>
        rw [hdv] at hout
        rw [hout] at hlook
        by_cases hnull : dv = Value.null
        · subst hnull
          constructor
          · unfold defProblem
            simp [hlook, isNullish, hreqf]
          · rw [hout]
            unfold defOutput
            simp [hlook, isNullish, hreqf, hdv]
        · have hfix := hdf dv hdv hnull
          have hnul2 : isNullish (some dv) = false := isNullish_some_of_ne dv hnull
          constructor
          · unfold defProblem
            simp [hlook, hnul2, hfix.1, hfix.2]
          · rw [hout]
            unfold defOutput
            simp [hlook, hnul2, hfix.1, hfix.2]
    | false =>
      cases hv : jsLookup params d.name with
      | none => exfalso; rw [hv] at hn; simp [isNullish] at hn
      | some v =>
        have hvnn : isNullish (some v) = false := by rw [← hv]; exact hn
        unfold defProblem at hpd
        rw [hv, hvnn] at hpd
        simp at hpd
        cases hvt : validateParameterType d.name v d.type with
        | error e => rw [hvt] at hpd; simp at hpd
        | ok vv =>
          rw [hvt] at hpd
          simp at hpd
          have hout : defOutput params d = some vv := by
            unfold defOutput
            simp [hv, hvnn, hvt, hpd]
          rw [hout] at hlook
          have hmem : (d.name, vv) ∈ V := jsLookup_mem V d.name vv hlook
          have hwf : valueStringsFixed vv = true := by
            simpa using hsf (d.name, vv) hmem
          have hvvnn : vv ≠ Value.null :=
            validateParameterType_ok_not_null d.name d.type v vv hvt
          have hnul2 : isNullish (some vv) = false := isNullish_some_of_ne vv hvvnn
          have hcoer := validateParameterType_fixed d.name d.type v vv hvt hwf
          constructor
          · unfold defProblem
            simp [hlook, hnul2, hcoer, hpd]
          · rw [hout]
            unfold defOutput
            simp [hlook, hnul2, hcoer, hpd]

/-! ## Claim C4 — all validation problems are reported together -/

/-- Concrete pattern for the C4 counterexample (extensional model of the
regex `^x$`). -/
def c4pattern : String → Bool := fun s => s == "x"

/-- A text definition with a validation pattern, for the C4 counterexample. -/
def c4textDef : ParamDef := ⟨"a", PType.string, false, none, some c4pattern, none⟩

/-- **C4, counterexample.**  The claim says a text value failing its
validation pattern makes `validateParameters` fail.  The raw value `" "`
fails the pattern (and so does its sanitized form `""`), yet validation
succeeds: the source's `&& validatedValue.value` truthiness test skips the
pattern check for an empty sanitized string. -/
theorem c4_counterexample :
    validateParameters [("a", Value.str " ")] [c4textDef] =
        Except.ok [("a", Value.str "")] ∧
      c4pattern " " = false ∧ c4pattern (sanitizeString " ") = false :=
  ⟨rfl, rfl, rfl⟩

/-- **C4, amended.**  Whenever at least one definition has a problem —
a missing required parameter, an uncoercible value, or a *non-empty*
sanitized text value failing its pattern (`defProblem`) — validation fails
with exactly the list of per-definition problem messages, in definition
order (all of them, not only the first), and no output mapping is ever
delivered. -/
theorem c4_all_problems_reported (params : Params) (definitions : List ParamDef)
    (h : definitions.filterMap (defProblem params) ≠ []) :
    validateParameters params definitions =
        Except.error (definitions.filterMap (defProblem params)) ∧
      ∀ V : Params, validateParameters params definitions ≠ Except.ok V := by
  refine ⟨validateParameters_error_char params definitions h, ?_⟩
  intro V hc
  rw [validateParameters_error_char params definitions h] at hc
  cases hc

/-- A required text parameter, for the C4 witness. -/
def c4reqDef : ParamDef := ⟨"a", PType.string, true, none, none, none⟩

/-- A number parameter, for the C4 witness. -/
def c4numDef : ParamDef := ⟨"b", PType.number, false, none, none, none⟩

/-- Witness for `c4_all_problems_reported`: a mapping with two problems
(missing required `a`, unparsable number `b`) yields both messages. -/
theorem c4_all_problems_reported_witness :
    validateParameters [("b", Value.str "z")] [c4reqDef, c4numDef] =
        Except.error ["Missing required parameter: a",
          "Parameter b must be a valid number"] ∧
      ∀ V : Params,
        validateParameters [("b", Value.str "z")] [c4reqDef, c4numDef] ≠ Except.ok V := by
  have h := c4_all_problems_reported [("b", Value.str "z")] [c4reqDef, c4numDef]
    (by decide)
  exact ⟨h.1.trans (by rfl), h.2⟩

/-! ## Claim C7 — idempotence of validation -/

/-- An optional text definition with no pattern, for the C7 counterexample. -/
def c7textDef : ParamDef := ⟨"a", PType.string, false, none, none, none⟩

/-- **C7, counterexample.**  `validateParameters` is not idempotent: the
input `"a\r\r\nb"` validates to `"a\r\nb"` (the CR-LF replace is one pass),
and re-validating that output changes it again to `"a\nb"`. -/
theorem c7_counterexample :
    validateParameters [("a", Value.str "a\r\r\nb")] [c7textDef] =
        Except.ok [("a", Value.str "a\r\nb")] ∧
      validateParameters [("a", Value.str "a\r\nb")] [c7textDef] =
        Except.ok [("a", Value.str "a\nb")] ∧
      ("a\nb" : String) ≠ "a\r\nb" :=
  ⟨rfl, rfl, by decide⟩

/-- **C7, amended.**  Re-validating a successful output returns it
unchanged *provided* (a) every non-null default value is a fixed point of
its definition's coercion and pattern check, and (b) every string in the
output (top level or array element) is a fixed point of `sanitizeString`
(the definitions' names being distinct, as the data model requires). -/
theorem c7_validate_idempotent_conditional (params V : Params)
    (definitions : List ParamDef)
    (hnd : (definitions.map ParamDef.name).Nodup)
    (hok : validateParameters params definitions = Except.ok V)
    (hdf : ∀ d ∈ definitions, defaultFixed d)
    (hsf : ∀ kv ∈ V, valueStringsFixed kv.2 = true) :
    validateParameters V definitions = Except.ok V := by
  obtain ⟨hprob, hV⟩ := validateParameters_ok_char params definitions V hnd hok
  have key : ∀ d ∈ definitions,
      defProblem V d = none ∧ defOutput V d = defOutput params d :=
    fun d hd => revalidate_defProblem_defOutput params V definitions hnd hV hsf d hd
      (hprob d hd) (hdf d hd)
  have hall : definitions.filterMap (defProblem V) = [] :=
    List.filterMap_eq_nil_iff.mpr (fun d hd => (key d hd).1)
  have hsame : validatedOutputs V definitions = validatedOutputs params definitions := by
    unfold validatedOutputs
    apply List.filterMap_congr
    intro d hd
    rw [(key d hd).2]
  rw [validateParameters_ok_of_no_problem V definitions hnd hall, hsame, ← hV]

/-- A required text definition, for the C7 witness. -/
def c7reqDef : ParamDef := ⟨"a", PType.string, true, none, none, none⟩

/-- Witness for `c7_validate_idempotent_conditional` at a concrete schema
and mapping satisfying the side conditions. -/
theorem c7_validate_idempotent_conditional_witness :
    validateParameters [("a", Value.str "hi")] [c7reqDef] =
      Except.ok [("a", Value.str "hi")] := by
  have h := c7_validate_idempotent_conditional
    [("a", Value.str "hi")] [("a", Value.str "hi")] [c7reqDef]
    (by decide) rfl
    (by
      intro d hd
      have hde : d = c7reqDef := by simpa using hd
      subst hde
      intro dv hdv hne
      cases hdv)
    (by
      intro kv hm
      have hke : kv = ("a", Value.str "hi") := by simpa using hm
      subst hke
      rfl)
  exact h

/-! ## Claim C9 — optional parameters with no default -/

/-- An optional text definition carrying the schema-default `null` as its
`defaultValue` (what mongoose stores when no default is declared). -/
def c9nullDefaultDef : ParamDef := ⟨"a", PType.string, false, some Value.null, none, none⟩

/-- **C9, counterexample.**  For a definition whose `defaultValue` is the
stored `null` (the schema's representation of "no default"), an absent
value does *not* lead to omission: `null !== undefined`, so the default
branch runs and the output maps the name to `null`. -/
theorem c9_counterexample :
    validateParameters [] [c9nullDefaultDef] = Except.ok [("a", Value.null)] ∧
      jsLookup [("a", Value.null)] "a" = some Value.null :=
  ⟨rfl, rfl⟩

/-- **C9, amended.**  For an optional definition and an absent (or null)
caller value, the successful output's entry for the name equals the
definition's `defaultValue` verbatim: no entry when `defaultValue` is
absent (JS `undefined`), and an explicit `name → null` entry when it is the
stored `null`. -/
theorem c9_optional_absent_entry (params : Params) (definitions : List ParamDef)
    (V : Params) (hnd : (definitions.map ParamDef.name).Nodup)
    (hok : validateParameters params definitions = Except.ok V)
    (d : ParamDef) (hd : d ∈ definitions) (hreq : d.required = false)
    (habs : isNullish (jsLookup params d.name) = true) :
    jsLookup V d.name = d.defaultValue := by
  obtain ⟨hprob, hV⟩ := validateParameters_ok_char params definitions V hnd hok
  have hlook : jsLookup V d.name = defOutput params d := by
    rw [hV]; exact jsLookup_validatedOutputs params definitions hnd d hd
  rw [hlook]
  unfold defOutput
  simp [hreq, habs]

/-- An optional text definition with a truly absent (`undefined`)
`defaultValue`, for the C9 witness. -/
def c9noDefaultDef : ParamDef := ⟨"u", PType.string, false, none, none, none⟩

/-- Witness for `c9_optional_absent_entry`: with an `undefined` default and
no supplied value, the output has no entry for the name. -/
theorem c9_optional_absent_entry_witness :
    jsLookup ([] : Params) "u" = none := by
  have h := c9_optional_absent_entry [] [c9noDefaultDef] [] (by decide) rfl
    c9noDefaultDef (List.mem_singleton.mpr rfl) rfl rfl
  exact h

/-! ## Claim C10 — required takes precedence over defaults -/

/-- **C10.**  For a required definition whose value is absent or null —
regardless of any (even non-null) `defaultValue` — `validateParameters`
fails, its error list contains the missing-required message for that name,
and no output mapping is ever produced (so the default is never
substituted). -/
theorem c10_required_precedes_default (params : Params)
    (definitions : List ParamDef) (d : ParamDef) (hd : d ∈ definitions)
    (hreq : d.required = true)
    (habs : isNullish (jsLookup params d.name) = true) :
    (∃ E, validateParameters params definitions = Except.error E ∧
        ("Missing required parameter: " ++ d.name) ∈ E) ∧
      ∀ V : Params, validateParameters params definitions ≠ Except.ok V := by
  have hp : defProblem params d = some ("Missing required parameter: " ++ d.name) := by
    unfold defProblem
    rw [hreq, habs]
    rfl
  have hmem : ("Missing required parameter: " ++ d.name) ∈
      definitions.filterMap (defProblem params) :=
    List.mem_filterMap.mpr ⟨d, hd, hp⟩
  have hne : definitions.filterMap (defProblem params) ≠ [] := by
    intro hc
    rw [hc] at hmem
    cases hmem
  refine ⟨⟨definitions.filterMap (defProblem params),
    validateParameters_error_char params definitions hne, hmem⟩, ?_⟩
  intro V hc
  rw [validateParameters_error_char params definitions hne] at hc
  cases hc

/-- A required text definition carrying a non-null default, for the C10
witness. -/
def c10reqWithDefault : ParamDef :=
  ⟨"r", PType.string, true, some (Value.str "dflt"), none, none⟩

/-- Witness for `c10_required_precedes_default`: required `r` with default
`"dflt"`, called with no parameters, fails with the missing message. -/
theorem c10_required_precedes_default_witness :
    (∃ E, validateParameters [] [c10reqWithDefault] = Except.error E ∧
        ("Missing required parameter: " ++ "r") ∈ E) ∧
      ∀ V : Params, validateParameters [] [c10reqWithDefault] ≠ Except.ok V := by
  have h := c10_required_precedes_default [] [c10reqWithDefault] c10reqWithDefault
    (List.mem_singleton.mpr rfl) rfl rfl
  exact h

/-! ## Claim C5 — argument construction -/

/-- The spec's description of argument construction for one entry of the
validated mapping: boolean `true` is a bare flag, `false` and `null` are
omitted, a list yields one `--name=element` per element, any other scalar
yields one `--name=value`. -/
def specArgsFor (k : String) (v : Value) : List String :=
  match v with
  | Value.null => []
  | Value.bool true => ["--" ++ k]
  | Value.bool false => []
  | Value.arr items => items.map (fun item => "--" ++ k ++ "=" ++ jsToString item)
  | v => ["--" ++ k ++ "=" ++ jsToString v]

theorem processArg_eq (args : List String) (kv : String × Value) :
    (match kv.2 with
      | Value.null => args
      | Value.bool b => if b then args ++ ["--" ++ kv.1] else args
      | Value.arr items =>
        args ++ items.map (fun item => "--" ++ kv.1 ++ "=" ++ jsToString item)
      | v => args ++ ["--" ++ kv.1 ++ "=" ++ jsToString v]) =
      args ++ specArgsFor kv.1 kv.2 := by
  rcases kv with ⟨k, v⟩
  cases v with
  | null => simp [specArgsFor]
  | bool b => cases b <;> simp [specArgsFor]
  | arr items => simp [specArgsFor]
  | str s => simp [specArgsFor]
  | num n => simp [specArgsFor]

theorem foldl_append_emit {α β : Type} (l : List α) (f : List β → α → List β)
    (g : α → List β) (hf : ∀ acc x, f acc x = acc ++ g x) (init : List β) :
    l.foldl f init = init ++ l.flatMap g := by
  induction l generalizing init with
  | nil => simp
  | cons x rest ih =>
    rw [List.foldl_cons, hf, ih, List.flatMap_cons, List.append_assoc]

/-- **C5.**  `paramsToArgs` produces exactly the arguments the spec
describes (`specArgsFor`), one group per entry, in the insertion order of
the validated mapping: `true` booleans become bare `--name` flags, `false`
booleans and `null` entries are omitted, lists contribute one
`--name=element` per element, and every other scalar contributes one
`--name=value`. -/
theorem c5_args_construction (params : Params) :
    paramsToArgs params = params.flatMap (fun kv => specArgsFor kv.1 kv.2) := by
  unfold paramsToArgs
  rw [foldl_append_emit params _ (fun kv => specArgsFor kv.1 kv.2)
    (fun acc kv => processArg_eq acc kv) []]
  simp

/-! ## Claim C8 — text sanitization -/

/-- Contains the two-character sequence carriage-return line-feed. -/
def hasCRLF : List Char → Bool
  | [] => false
  | [_] => false
  | c1 :: c2 :: rest =>
    if c1 = '\r' ∧ c2 = '\n' then true else hasCRLF (c2 :: rest)

theorem mem_of_mem_dropWhile {α : Type} (p : α → Bool) (l : List α) (c : α)
    (h : c ∈ l.dropWhile p) : c ∈ l := by
  induction l with
  | nil => simp at h
  | cons x rest ih =>
    rw [List.dropWhile_cons] at h
    by_cases hp : p x = true
    · rw [if_pos hp] at h
      exact List.mem_cons_of_mem x (ih h)
    · rw [if_neg hp] at h
      exact h

theorem mem_of_mem_trimChars (l : List Char) (c : Char) (h : c ∈ trimChars l) :
    c ∈ l := by
  unfold trimChars at h
  rw [List.mem_reverse] at h
  have h1 := mem_of_mem_dropWhile isJsSpace _ c h
  rw [List.mem_reverse] at h1
  exact mem_of_mem_dropWhile isJsSpace l c h1

theorem mem_of_mem_replaceCRLF :
    ∀ (l : List Char) (c : Char), c ∈ replaceCRLF l → c ∈ l ∨ c = '\n'
  | [], c, h => by simp [replaceCRLF] at h
  | [x], c, h => by
    simp [replaceCRLF] at h
    exact Or.inl (by simp [h])
  | c1 :: c2 :: rest, c, h => by
    rw [replaceCRLF] at h
    by_cases hc : c1 = '\r' ∧ c2 = '\n'
    · rw [if_pos hc] at h
      rcases List.mem_cons.mp h with he | hm
      · exact Or.inr he
      · rcases mem_of_mem_replaceCRLF rest c hm with h1 | h1
        · exact Or.inl (by simp [h1])
        · exact Or.inr h1
    · rw [if_neg hc] at h
      rcases List.mem_cons.mp h with he | hm
      · exact Or.inl (by simp [he])
      · rcases mem_of_mem_replaceCRLF (c2 :: rest) c hm with h1 | h1
        · exact Or.inl (List.mem_cons_of_mem c1 h1)
        · exact Or.inr h1

/-- **C8, counterexample.**  The claim says every line ending is normalized
to a single line feed; but the CR-LF replace is a single simultaneous pass,
so for input `"a\r\r\nb"` the sanitized output `"a\r\nb"` still contains a
CR-LF pair (and a lone CR in input is never touched at all). -/
theorem c8_counterexample :
    validateParameterType "t" (Value.str "a\r\r\nb") PType.string =
        Except.ok (Value.str "a\r\nb") ∧
      hasCRLF ("a\r\nb").data = true ∧
      sanitizeString "a\rb" = "a\rb" :=
  ⟨rfl, rfl, rfl⟩

/-- **C8, amended.**  Text validation accepts only string input; the output
is the input with the control characters 0x00–0x08, 0x0B, 0x0C, 0x0E–0x1F,
0x7F removed (none of them survive into the output), CR-LF pairs rewritten
to LF in one left-to-right pass (pairs formed by the rewrite, and lone CRs,
remain), and surrounding whitespace trimmed; non-string input is rejected
with the source's message. -/
theorem c8_text_sanitization (name : String) (s : String) :
    validateParameterType name (Value.str s) PType.string =
        Except.ok (Value.str (String.mk (trimChars (replaceCRLF (stripCtrlChars s.data))))) ∧
      (∀ c ∈ (sanitizeString s).data, isStrippedCtrl c = false) ∧
      (∀ v : Value, (∀ t, v ≠ Value.str t) →
        validateParameterType name v PType.string =
          Except.error ("Parameter " ++ name ++ " must be a string")) := by
  refine ⟨rfl, ?_, ?_⟩
  · intro c hc
    have h1 : c ∈ trimChars (replaceCRLF (stripCtrlChars s.data)) := hc
    have h2 := mem_of_mem_trimChars _ c h1
    rcases mem_of_mem_replaceCRLF _ c h2 with h3 | h3
    · have := (List.mem_filter.mp h3).2
      simpa using this
    · rw [h3]
      rfl
  · intro v hv
    cases v with
    | str t => exact absurd rfl (hv t)
    | num n => rfl
    | bool b => rfl
    | null => rfl
    | arr items => rfl

/-- Witness for `c8_text_sanitization`: a concrete string is sanitized
(control character stripped, whitespace trimmed) and a number is rejected. -/
theorem c8_text_sanitization_witness :
    validateParameterType "t" (Value.str " x\x01 ") PType.string =
        Except.ok (Value.str "x") ∧
      validateParameterType "t" (Value.num 3) PType.string =
        Except.error "Parameter t must be a string" := by
  have h := c8_text_sanitization "t" " x\x01 "
  refine ⟨h.1.trans (by rfl), ?_⟩
  have h3 := h.2.2 (Value.num 3) (by intro t hc; cases hc)
  simpa using h3

/-! ## Claim C1 — traversal-resistant path resolution -/

/-- Contains the three-character sequence `../`. -/
def hasDotDotSlash : List Char → Bool
  | c1 :: c2 :: c3 :: rest =>
    if c1 = '.' ∧ c2 = '.' ∧ c3 = '/' then true
    else hasDotDotSlash (c2 :: c3 :: rest)
  | _ => false

/-- The executable name contains the substring `../`. -/
def containsDotDotSlash (s : String) : Bool :=
  hasDotDotSlash s.data

theorem slash_mem_of_hasDotDotSlash :
    ∀ (l : List Char), hasDotDotSlash l = true → '/' ∈ l
  | [], h => by simp [hasDotDotSlash] at h
  | [c], h => by simp [hasDotDotSlash] at h
  | [c1, c2], h => by simp [hasDotDotSlash] at h
  | c1 :: c2 :: c3 :: rest, h => by
    rw [hasDotDotSlash] at h
    by_cases hc : c1 = '.' ∧ c2 = '.' ∧ c3 = '/'
    · rw [← hc.2.2]
      simp
    · rw [if_neg hc] at h
      exact List.mem_cons_of_mem c1 (slash_mem_of_hasDotDotSlash (c2 :: c3 :: rest) h)

theorem stripScriptName_no_slash (s : String) : '/' ∉ (stripScriptName s).data := by
  unfold stripScriptName
  intro h
  have := (List.mem_filter.mp h).2
  exact absurd this (by decide)

/--
**C1.**  (1) Whenever stripping the non-`[A-Za-z0-9_.-]` characters changes
an executable name, `getScriptPath` resolves no path; (2) for any module
whose stored `scriptName` changes under stripping, `executeScript` returns
a failure result and spawns no child process; (3) any name containing
`../` changes under stripping (so (1) and (2) apply to it).
-/
theorem c1_path_traversal_rejected :
    (∀ (env : Env) (name : String), stripScriptName name ≠ name →
        getScriptPath env name = none) ∧
      (∀ (env : Env) (mid : String) (params : Params) (uid : String) (m : ModuleDef),
        getModuleById env.modules mid = Except.ok m →
        stripScriptName m.scriptName ≠ m.scriptName →
        (executeScript env mid params uid).2 = false ∧
          (executeScript env mid params uid).1.success = false) ∧
      (∀ name : String, containsDotDotSlash name = true →
        stripScriptName name ≠ name) := by
  have hgp : ∀ (env : Env) (name : String), stripScriptName name ≠ name →
      getScriptPath env name = none := by
    intro env name hne
    unfold getScriptPath
    rw [if_pos (by simpa using hne)]
  refine ⟨hgp, ?_, ?_⟩
  · intro env mid params uid m hmod hne
    have hpath := hgp env m.scriptName hne
    constructor <;> simp [executeScript, hmod, hpath, failureResult]
  · intro name hdds heq
    have hslash : '/' ∈ name.data :=
      slash_mem_of_hasDotDotSlash name.data hdds
    rw [← heq] at hslash
    exact stripScriptName_no_slash name hslash

/-- A module whose stored executable name attempts `../` traversal, for the
C1 witness. -/
def c1env : Env :=
  ⟨[⟨"m", "../etc/passwd", [], true⟩], "/app", fun _ => true, 30000,
    fun _ _ => SpawnOutcome.success "out" "" 5⟩

/-- Witness for `c1_path_traversal_rejected`: with the stored name
`../etc/passwd`, execution fails and no process is spawned even though the
filesystem check would pass and the spawn would succeed. -/
theorem c1_path_traversal_rejected_witness :
    (executeScript c1env "m" [] "u").2 = false ∧
      (executeScript c1env "m" [] "u").1.success = false := by
  have h := c1_path_traversal_rejected
  exact h.2.1 c1env "m" [] "u" ⟨"m", "../etc/passwd", [], true⟩ (by rfl) (by decide)

/-! ## Claim C6 — elapsed time reporting -/

/-- An environment whose single spawn times out after 30042 ms. -/
def c6envTimeout : Env :=
  ⟨[⟨"m1", "job.sh", [], true⟩], "/app", fun _ => true, 30000,
    fun _ _ => SpawnOutcome.timedOut 30042⟩

/-- An environment whose single spawn succeeds in 12 ms. -/
def c6envOk : Env :=
  ⟨[⟨"m1", "job.sh", [], true⟩], "/app", fun _ => true, 30000,
    fun _ _ => SpawnOutcome.success "out" "" 12⟩

/--
**C6, divergence.**  `executeScriptWithTimeout` computes the elapsed time
on every path and attaches it to the error it rejects with, but
`executeScript`'s catch block builds the failure result without an
`executionTime` key: on the timeout path the caller receives
`success: false` with *no* elapsed time, while the success path does carry
it.  The claim that elapsed time is returned to the caller on every failure
path is therefore false of the code.
-/
theorem c6_failure_result_drops_execution_time :
    ((executeScript c6envTimeout "m1" [] "u").1.success = false ∧
      (executeScript c6envTimeout "m1" [] "u").2 = true ∧
      (executeScript c6envTimeout "m1" [] "u").1.executionTime = none ∧
      (executeScript c6envTimeout "m1" [] "u").1.error =
        some "Script execution timed out after 30000ms" ∧
      (executeScriptWithTimeout (SpawnOutcome.timedOut 30042) 30000).map
          ExecOk.executionTime =
        Except.error ⟨"Script execution timed out after 30000ms", none, 30042⟩) ∧
    ((executeScript c6envOk "m1" [] "u").1.success = true ∧
      (executeScript c6envOk "m1" [] "u").1.executionTime = some 12) := by
  refine ⟨⟨?_, ?_, ?_, ?_, ?_⟩, ?_, ?_⟩ <;> rfl

/-! ## Claims C2 and C3 — permission resolution -/

theorem mem_jsSetDedup_aux (l acc : List String) (x : String) :
    x ∈ l.foldl (fun acc y => if acc.contains y then acc else acc ++ [y]) acc ↔
      x ∈ acc ∨ x ∈ l := by
  induction l generalizing acc with
  | nil => simp
  | cons y rest ih =>
    simp only [List.foldl_cons]
    by_cases hy : acc.contains y = true
    · rw [if_pos hy, ih]
      have hym : y ∈ acc := by simpa using hy
      constructor
      · rintro (h | h)
        · exact Or.inl h
        · exact Or.inr (List.mem_cons_of_mem y h)
      · rintro (h | h)
        · exact Or.inl h
        · rcases List.mem_cons.mp h with he | hm
          · exact Or.inl (he ▸ hym)
          · exact Or.inr hm
    · rw [if_neg hy, ih]
      simp only [List.mem_append, List.mem_cons, List.mem_singleton]
      tauto

theorem mem_jsSetDedup (l : List String) (x : String) :
    x ∈ jsSetDedup l ↔ x ∈ l := by
  unfold jsSetDedup
  rw [mem_jsSetDedup_aux]
  simp

/-- Membership in `getAccessibleModules`, characterized: exactly the
`moduleId`s granted to some stored role at an equal-or-higher level
number. -/
theorem mem_getAccessibleModules (db : List Role) (name : String) (r : Role)
    (hr : getRoleByName db name = some r) (m : String) :
    m ∈ getAccessibleModules db name ↔
      ∃ r' ∈ db, r.level ≤ r'.level ∧ ∃ p ∈ r'.permissions, p.moduleId = m := by
  unfold getAccessibleModules
  rw [hr]
  simp only []
  rw [mem_jsSetDedup]
  simp only [List.mem_flatMap, List.mem_filter, List.mem_map, decide_eq_true_eq,
    ge_iff_le]
  constructor
  · rintro ⟨r', ⟨hr'db, hlev⟩, p, hp, he⟩
    exact ⟨r', hr'db, hlev, p, hp, he⟩
  · rintro ⟨r', hr'db, hlev, p, hp, he⟩
    exact ⟨r', ⟨hr'db, hlev⟩, p, hp, he⟩

/--
**C2.**  (1) For an existing role, `getAccessibleModules` returns exactly
the union over all stored roles with level number ≥ the role's level of
their permissions' `moduleId`s; (2) it is antitone in privilege-level
number: a strictly more privileged role (smaller level) receives a superset;
(3) it always contains the role's own direct grants.
-/
theorem c2_accessible_modules_hierarchy :
    (∀ (db : List Role) (name : String) (r : Role),
        getRoleByName db name = some r → ∀ m : String,
        m ∈ getAccessibleModules db name ↔
          ∃ r' ∈ db, r.level ≤ r'.level ∧ ∃ p ∈ r'.permissions, p.moduleId = m) ∧
      (∀ (db : List Role) (n1 n2 : String) (r1 r2 : Role),
        getRoleByName db n1 = some r1 → getRoleByName db n2 = some r2 →
        r1.level < r2.level →
        ∀ m ∈ getAccessibleModules db n2, m ∈ getAccessibleModules db n1) ∧
      (∀ (db : List Role) (name : String) (r : Role),
        getRoleByName db name = some r →
        ∀ p ∈ r.permissions, p.moduleId ∈ getAccessibleModules db name) := by
  refine ⟨fun db name r hr m => mem_getAccessibleModules db name r hr m, ?_, ?_⟩
  · intro db n1 n2 r1 r2 h1 h2 hlt m hm
    rw [mem_getAccessibleModules db n2 r2 h2 m] at hm
    rw [mem_getAccessibleModules db n1 r1 h1 m]
    rcases hm with ⟨r', hr'db, hlev, p, hp, he⟩
    exact ⟨r', hr'db, le_trans (le_of_lt hlt) hlev, p, hp, he⟩
  · intro db name r hr p hp
    rw [mem_getAccessibleModules db name r hr]
    exact ⟨r, List.mem_of_find?_eq_some hr, le_refl r.level, p, hp, rfl⟩

/-- A most-privileged stored role, for the C2/C3 witnesses. -/
def adminRole : Role := ⟨"admin", 0, [⟨"user_admin", "manage users"⟩]⟩

/-- A least-privileged stored role, for the C2/C3 witnesses. -/
def userRole : Role := ⟨"user", 10, [⟨"system_info", "view system info"⟩]⟩

/-- A concrete role store, for the C2/C3 witnesses. -/
def rolesDb : List Role := [adminRole, userRole]

/-- Witness for `c2_accessible_modules_hierarchy`: the level-0 admin
inherits the level-10 user's grant, and keeps its own. -/
theorem c2_accessible_modules_hierarchy_witness :
    "system_info" ∈ getAccessibleModules rolesDb "admin" ∧
      "user_admin" ∈ getAccessibleModules rolesDb "admin" := by
  have h := c2_accessible_modules_hierarchy
  constructor
  · exact h.2.1 rolesDb "admin" "user" adminRole userRole (by rfl) (by rfl)
      (by decide) "system_info" (by decide)
  · exact h.2.2 rolesDb "admin" adminRole (by rfl)
      ⟨"user_admin", "manage users"⟩ (List.mem_singleton.mpr rfl)

/--
**C3.**  `hasModuleAccess` is true exactly when the module is among the
role's accessible modules; an unknown role has the empty accessible set
(hence no access); and a persistence-layer error makes `hasModuleAccess`
return `false` rather than propagate.
-/
theorem c3_has_access_fail_closed :
    (∀ (db : List Role) (name mid : String),
        hasModuleAccess (Except.ok db) name mid = true ↔
          mid ∈ getAccessibleModules db name) ∧
      (∀ (db : List Role) (name : String), getRoleByName db name = none →
        getAccessibleModules db name = []) ∧
      (∀ (e : String) (name mid : String),
        hasModuleAccess (Except.error e) name mid = false) := by
  refine ⟨?_, ?_, ?_⟩
  · intro db name mid
    unfold hasModuleAccess getAccessibleModulesE
    simp
  · intro db name h
    unfold getAccessibleModules
    rw [h]
  · intro e name mid
    rfl

/-- Witness for `c3_has_access_fail_closed`: an unknown role name yields
the empty set and therefore no access. -/
theorem c3_has_access_fail_closed_witness :
    getAccessibleModules rolesDb "ghost" = [] ∧
      hasModuleAccess (Except.ok rolesDb) "ghost" "system_info" = false := by
  have h := c3_has_access_fail_closed
  have hempty := h.2.1 rolesDb "ghost" (by rfl)
  refine ⟨hempty, ?_⟩
  cases hb : hasModuleAccess (Except.ok rolesDb) "ghost" "system_info"
  · rfl
  · have hmem := (h.1 rolesDb "ghost" "system_info").mp hb
    rw [hempty] at hmem
    cases hmem

end FileTransfer
